import Mathlib

/-!
Verification of the node binding adapter in
`src/packages/tree-sitter-allium/bindings/node/binding.cc`.

The binding registers two module exports: the constant string `"allium"`
under the key `"name"`, and under the key `"language"` a factory that wraps
the grammar-descriptor address returned by the engine accessor
`tree_sitter_allium` into an opaque JavaScript value.

The embedding below follows the source line by line.  Machine addresses
are `Nat`; the process-wide engine accessor (a global in C) is a field of
the ambient `NapiEnv`, fixed for the lifetime of a process; the N-API
object store is an explicit heap so that in-place mutation and framing can
be stated.
-/

/-- The ambient N-API environment of one loaded process.  `alliumAddr` is
the address that the engine accessor returns; the engine's contract is that
this address is fixed within a process, so it is part of the environment. -/
structure NapiEnv where
  alliumAddr : Nat
deriving DecidableEq

/-- `extern "C" const TSLanguage *tree_sitter_allium();` (binding.cc line 5):
the engine accessor, returning the descriptor's address. -/
def tree_sitter_allium (env : NapiEnv) : Nat :=
  env.alliumAddr

/-- `const_cast<TSLanguage*>` on binding.cc line 10: a pointer cast, the
address is unchanged. -/
def constCastAddr (a : Nat) : Nat :=
  a

/-- The native functions this module creates with `Napi::Function::New`
(defunctionalized so that values stay decidable). -/
inductive NativeFn where
  | language
deriving DecidableEq

/-- JavaScript values that appear in this module's export table:
strings, opaque external references (`Napi::External`) wrapping an
address, and function objects. -/
inductive JsValue where
  | str (s : String)
  | extRef (addr : Nat)
  | func (fn : NativeFn)
deriving DecidableEq

/-- The contents of one JS object used as an export table: an ordered list
of key/value entries. -/
def ExportTable : Type :=
  List (String × JsValue)

instance : DecidableEq ExportTable :=
  inferInstanceAs (DecidableEq (List (String × JsValue)))

/-- `Napi::Object::Set`: overwrite the entry of an existing key in place,
else append a new entry. -/
def setEntry : ExportTable → String → JsValue → ExportTable
  | [], k, v => [(k, v)]
  | (k2, v2) :: rest, k, v =>
      if k2 = k then (k, v) :: rest else (k2, v2) :: setEntry rest k v

/-- Property read on an export table. -/
def lookupEntry : ExportTable → String → Option JsValue
  | [], _ => none
  | (k2, v2) :: rest, k => if k2 = k then some v2 else lookupEntry rest k

/-- The keys of an export table, in order. -/
def keysOf (t : ExportTable) : List String :=
  t.map Prod.fst

/-- The body of the lambda on binding.cc lines 9-11: wrap the address
returned by the engine accessor as an opaque external reference.  `info`
is the JS argument list of the call. -/
def languageCallback (env : NapiEnv) (info : List JsValue) : JsValue :=
  JsValue.extRef (constCastAddr (tree_sitter_allium env))

/-- Dispatch of the defunctionalized native functions. -/
def callNative : NativeFn → NapiEnv → List JsValue → JsValue
  | NativeFn.language, env, info => languageCallback env info

/-- `Napi::Object Init(Napi::Env env, Napi::Object exports)` (binding.cc
lines 7-14), on table contents: set `"name"` to the string `"allium"`,
create the `language` function object, set it under `"language"`, and
return the table. -/
def Init (env : NapiEnv) (exports : ExportTable) : ExportTable :=
  let e1 := setEntry exports "name" (JsValue.str "allium")
  let language := JsValue.func NativeFn.language
  setEntry e1 "language" language

/-- The observable process state: the JS object store (reference to table
contents) and the grammar-descriptor memory (contents at each address). -/
structure World where
  heap : Nat → ExportTable
  descriptors : Nat → Nat

/-- `Init` acting on the process state: it receives a reference to the
host-provided exports object, mutates that object in place, touches
nothing else, and returns the same reference. -/
def InitW (env : NapiEnv) (w : World) (exportsRef : Nat) : World × Nat :=
  ({ w with
      heap := fun r =>
        if r = exportsRef then Init env (w.heap exportsRef) else w.heap r },
   exportsRef)

/-- One invocation of the `language` factory acting on the process state:
the callback reads nothing from and writes nothing to the store, and
yields the wrapped descriptor address. -/
def languageW (env : NapiEnv) (w : World) (info : List JsValue) :
    World × JsValue :=
  (w, languageCallback env info)

/-- A sequence of successive invocations of the `language` factory, each
with its own argument list, collecting the returned handles. -/
def runLanguageCalls (env : NapiEnv) (w : World) :
    List (List JsValue) → World × List JsValue
  | [] => (w, [])
  | info :: rest =>
      let step := languageW env w info
      let tail := runLanguageCalls env step.1 rest
      (tail.1, step.2 :: tail.2)

/-- The straight-line statements of the body of `Init`, one instruction
per `exports.Set` call. -/
inductive Instr where
  | setStr (key value : String)
  | setFunc (key : String) (fn : NativeFn)
deriving DecidableEq

/-- Effect of one statement of the body on the export table. -/
def execInstr (t : ExportTable) : Instr → ExportTable
  | Instr.setStr k v => setEntry t k (JsValue.str v)
  | Instr.setFunc k f => setEntry t k (JsValue.func f)

/-- The body of `Init` as written: two `Set` statements, no loop and no
branch. -/
def InitBody : List Instr :=
  [Instr.setStr "name" "allium", Instr.setFunc "language" NativeFn.language]

/-- Fuel-bounded execution of a straight-line body: `none` means the fuel
ran out before the body completed. -/
def runBody : Nat → List Instr → ExportTable → Option ExportTable
  | _, [], t => some t
  | 0, _ :: _, _ => none
  | fuel + 1, i :: rest, t => runBody fuel rest (execInstr t i)

/-- Outcome of loading the native module. -/
inductive LoadOutcome where
  | loaded (exports : ExportTable)
  | linkageError
deriving DecidableEq

/-- Modelled from the spec: the host runtime's module-load step — the
`NODE_API_MODULE(tree_sitter_allium_binding, Init)` registration on
binding.cc line 16 together with dynamic-symbol resolution of
`tree_sitter_allium`, neither of which is code in this repository.  Per
the spec, if the descriptor accessor cannot be resolved the load fails
with `LinkageError`, propagated unmodified, and no export table is
produced; otherwise the loader calls `Init` on a fresh export table. -/
def loadModule (resolvedAccessor : Option NapiEnv) : LoadOutcome :=
  match resolvedAccessor with
  | none => LoadOutcome.linkageError
  | some env => LoadOutcome.loaded (Init env [])

/-- A concrete process state used to instantiate theorems. -/
def w0 : World :=
  { heap := fun _ => [], descriptors := fun _ => 0 }

/-! ### Helper lemmas about the export-table operations -/

theorem lookupEntry_setEntry_self (t : ExportTable) (k : String) (v : JsValue) :
    lookupEntry (setEntry t k v) k = some v := by
  induction t with
  | nil => simp [setEntry, lookupEntry]
  | cons p rest ih =>
      obtain ⟨k2, v2⟩ := p
      by_cases h : k2 = k <;> simp [setEntry, lookupEntry, h, ih]

theorem lookupEntry_setEntry_ne (t : ExportTable) (k k2 : String) (v : JsValue)
    (h : k ≠ k2) : lookupEntry (setEntry t k v) k2 = lookupEntry t k2 := by
  induction t with
  | nil => simp [setEntry, lookupEntry, h]
  | cons p rest ih =>
      obtain ⟨k3, v3⟩ := p
      by_cases h3 : k3 = k
      · subst h3; simp [setEntry, lookupEntry, h]
      · simp [setEntry, lookupEntry, h3, ih]

theorem setEntry_lookup_self (t : ExportTable) (k : String) (v : JsValue)
    (h : lookupEntry t k = some v) : setEntry t k v = t := by
  induction t with
  | nil => simp [lookupEntry] at h
  | cons p rest ih =>
      obtain ⟨k2, v2⟩ := p
      by_cases hk : k2 = k
      · subst hk
        simp [lookupEntry] at h
        simp [setEntry, h]
      · simp [lookupEntry, hk] at h
        simp [setEntry, hk, ih h]

theorem keysOf_cons (a : String) (b : JsValue) (l : ExportTable) :
    keysOf ((a, b) :: l) = a :: keysOf l :=
  rfl

theorem setEntry_cons_eq (k0 : String) (v2 v : JsValue) (rest : ExportTable) :
    setEntry ((k0, v2) :: rest) k0 v = (k0, v) :: rest := by
  simp [setEntry]

theorem setEntry_cons_ne (k2 k0 : String) (v2 v : JsValue) (rest : ExportTable)
    (hk : k2 ≠ k0) :
    setEntry ((k2, v2) :: rest) k0 v = (k2, v2) :: setEntry rest k0 v := by
  simp [setEntry, hk]

theorem mem_keysOf_setEntry (t : ExportTable) (k0 k : String) (v : JsValue)
    (h : k ∈ keysOf (setEntry t k0 v)) : k ∈ keysOf t ∨ k = k0 := by
  induction t with
  | nil => exact Or.inr (List.mem_singleton.1 h)
  | cons p rest ih =>
      obtain ⟨k2, v2⟩ := p
      by_cases hk : k2 = k0
      · subst hk
        rw [setEntry_cons_eq, keysOf_cons] at h
        rw [keysOf_cons]
        rcases List.mem_cons.1 h with h | h
        · exact Or.inr h
        · exact Or.inl (List.mem_cons_of_mem _ h)
      · rw [setEntry_cons_ne _ _ _ _ _ hk, keysOf_cons] at h
        rw [keysOf_cons]
        rcases List.mem_cons.1 h with h | h
        · exact Or.inl (h ▸ List.mem_cons_self _ _)
        · rcases ih h with h2 | h2
          · exact Or.inl (List.mem_cons_of_mem _ h2)
          · exact Or.inr h2

theorem lookupEntry_Init_name (env : NapiEnv) (t : ExportTable) :
    lookupEntry (Init env t) "name" = some (JsValue.str "allium") := by
  show lookupEntry (setEntry (setEntry t "name" (JsValue.str "allium"))
      "language" (JsValue.func NativeFn.language)) "name" = _
  rw [lookupEntry_setEntry_ne _ _ _ _ (by decide), lookupEntry_setEntry_self]

theorem lookupEntry_Init_language (env : NapiEnv) (t : ExportTable) :
    lookupEntry (Init env t) "language" = some (JsValue.func NativeFn.language) := by
  show lookupEntry (setEntry (setEntry t "name" (JsValue.str "allium"))
      "language" (JsValue.func NativeFn.language)) "language" = _
  rw [lookupEntry_setEntry_self]

theorem runLanguageCalls_world (env : NapiEnv) (w : World)
    (argss : List (List JsValue)) : (runLanguageCalls env w argss).1 = w := by
  induction argss with
  | nil => rfl
  | cons a rest ih => simpa [runLanguageCalls, languageW] using ih

/-! ### Claim theorems -/

/-- C1: for every sequence of successive invocations of the exported
`language` factory within one process (fixed `env`), every returned handle
wraps the identical descriptor address, the address returned by the
accessor `tree_sitter_allium`: the list of results of `n` calls is `n`
copies of the same external reference. -/
theorem language_identity_stability (env : NapiEnv) (w : World)
    (argss : List (List JsValue)) :
    (runLanguageCalls env w argss).2 =
      List.replicate argss.length (JsValue.extRef (tree_sitter_allium env)) := by
  induction argss with
  | nil => rfl
  | cons a rest ih =>
      simpa [runLanguageCalls, languageW, languageCallback, constCastAddr,
        List.replicate] using ih

/-- C2: after `Init` runs on the export table the host hands it (a fresh,
empty table), the table holds exactly the keys `"name"` and `"language"`,
the former a string and the latter a zero-argument factory; and on any
table, `Init` introduces no key besides those two. -/
theorem init_export_completeness (env : NapiEnv) :
    keysOf (Init env []) = ["name", "language"]
      ∧ lookupEntry (Init env []) "name" = some (JsValue.str "allium")
      ∧ lookupEntry (Init env []) "language" =
          some (JsValue.func NativeFn.language)
      ∧ ∀ (t : ExportTable) (k : String), k ∈ keysOf (Init env t) →
          k ∈ keysOf t ∨ k = "name" ∨ k = "language" := by
  refine ⟨rfl, rfl, rfl, ?_⟩
  intro t k h
  have h1 : k ∈ keysOf (setEntry t "name" (JsValue.str "allium")) ∨
      k = "language" := mem_keysOf_setEntry _ _ _ _ h
  rcases h1 with h1 | h1
  · rcases mem_keysOf_setEntry _ _ _ _ h1 with h2 | h2
    · exact Or.inl h2
    · exact Or.inr (Or.inl h2)
  · exact Or.inr (Or.inr h1)

/-- Witness for C2 at a concrete nonempty table: the pre-existing key
`"x"` survives `Init` and is accounted for by the frame disjunction. -/
theorem init_export_completeness_witness :
    "x" ∈ keysOf (Init ⟨0⟩ [("x", JsValue.str "y")]) ∧
      ("x" ∈ keysOf [("x", JsValue.str "y")] ∨ "x" = "name" ∨
        "x" = "language") :=
  ⟨by decide,
   (init_export_completeness ⟨0⟩).2.2.2 [("x", JsValue.str "y")] "x"
     (by decide)⟩

/-- C3: calling `Init` twice on the same export table is idempotent — the
table after the second call is equal (entry for entry, with no duplicate
keys added) to the table after a single call. -/
theorem init_idempotent (env : NapiEnv) (t : ExportTable) :
    Init env (Init env t) = Init env t := by
  show setEntry (setEntry (Init env t) "name" (JsValue.str "allium"))
      "language" (JsValue.func NativeFn.language) = Init env t
  rw [setEntry_lookup_self _ _ _ (lookupEntry_Init_name env t)]
  exact setEntry_lookup_self _ _ _ (lookupEntry_Init_language env t)

/-- C4: the registered `name` export is the constant string `"allium"` on
every read, whatever sequence of `language`-factory invocations (however
many, with whatever arguments) happens after registration; reading it is a
pure lookup with no failure mode (it yields `some`, never `none`). -/
theorem name_constancy (env : NapiEnv) (w : World) (exportsRef : Nat)
    (argss : List (List JsValue)) :
    lookupEntry
        ((runLanguageCalls env (InitW env w exportsRef).1 argss).1.heap
          exportsRef) "name" = some (JsValue.str "allium") := by
  rw [runLanguageCalls_world]
  show lookupEntry
      (if exportsRef = exportsRef then Init env (w.heap exportsRef)
        else w.heap exportsRef) "name" = _
  rw [if_pos rfl]
  exact lookupEntry_Init_name env (w.heap exportsRef)

/-- C5: `Init` returns the very same table object it was given — the same
reference, whose contents are the in-place mutation of the input — and has
no other observable effect: every other object in the store and the whole
descriptor memory are untouched. -/
theorem init_returns_same_table (env : NapiEnv) (w : World)
    (exportsRef : Nat) :
    (InitW env w exportsRef).2 = exportsRef
      ∧ (InitW env w exportsRef).1.heap exportsRef =
          Init env (w.heap exportsRef)
      ∧ (∀ r : Nat, r ≠ exportsRef →
          (InitW env w exportsRef).1.heap r = w.heap r)
      ∧ (InitW env w exportsRef).1.descriptors = w.descriptors := by
  refine ⟨rfl, ?_, ?_, rfl⟩
  · show (if exportsRef = exportsRef then Init env (w.heap exportsRef)
        else w.heap exportsRef) = _
    rw [if_pos rfl]
  · intro r hr
    show (if r = exportsRef then Init env (w.heap exportsRef)
        else w.heap r) = _
    rw [if_neg hr]

/-- Witness for C5 at a concrete state: initializing the object at
reference 0 leaves the distinct object at reference 1 untouched. -/
theorem init_returns_same_table_witness :
    (1 : Nat) ≠ 0 ∧ (InitW ⟨0⟩ w0 0).1.heap 1 = w0.heap 1 :=
  ⟨by decide, (init_returns_same_table ⟨0⟩ w0 0).2.2.1 1 (by decide)⟩

/-- C6: every invocation of the `language` factory yields exactly the
address obtained from the accessor `tree_sitter_allium`, wrapped as an
opaque external reference (the `const_cast` leaves the address unchanged),
and the result is independent of the descriptor's contents — nothing is
copied, dereferenced or interpreted. -/
theorem language_wraps_accessor (env : NapiEnv) (w : World)
    (info : List JsValue) :
    (languageW env w info).2 = JsValue.extRef (tree_sitter_allium env)
      ∧ (∀ a : Nat, constCastAddr a = a)
      ∧ ∀ d : Nat → Nat,
          (languageW env { w with descriptors := d } info).2 =
            (languageW env w info).2 :=
  ⟨rfl, fun _ => rfl, fun _ => rfl⟩

/-- C7: if the external descriptor accessor is unresolved, loading the
module yields `linkageError` unmodified — an outcome that carries no
export table, partial or otherwise, since the `linkageError` constructor
is distinct from every `loaded` outcome; whenever the accessor resolves,
the load succeeds with the fully populated two-key table and no error path
is reached. -/
theorem load_failure_propagation :
    loadModule none = LoadOutcome.linkageError
      ∧ ∀ env : NapiEnv,
          loadModule (some env) = LoadOutcome.loaded (Init env [])
            ∧ keysOf (Init env []) = ["name", "language"] :=
  ⟨rfl, fun _ => ⟨rfl, rfl⟩⟩

/-- C8: no adapter operation writes to, allocates in, or frees the
descriptor memory — both `Init` and every `language` invocation leave the
whole descriptor state unchanged, even though the wrapped address comes
through a constness-removing cast (which itself preserves the address). -/
theorem descriptor_never_mutated (env : NapiEnv) (w : World)
    (exportsRef : Nat) (info : List JsValue) :
    (InitW env w exportsRef).1.descriptors = w.descriptors
      ∧ (languageW env w info).1.descriptors = w.descriptors
      ∧ ∀ a : Nat, constCastAddr a = a :=
  ⟨rfl, rfl, fun _ => rfl⟩

/-- C9: both operations are total, terminating, straight-line
computations: the body of `Init` (two `Set` statements, no loop or branch)
runs to completion under the constant fuel bound given by its own length,
on every input, producing exactly `Init`'s result; and the `language`
callback evaluates on every input to an explicit value in one step. -/
theorem operations_terminate (env : NapiEnv) (t : ExportTable)
    (info : List JsValue) :
    runBody InitBody.length InitBody t = some (Init env t)
      ∧ languageCallback env info =
          JsValue.extRef (tree_sitter_allium env) :=
  ⟨rfl, rfl⟩

/-- C10: the exported `language` function ignores its call arguments
entirely — any two invocations in the same process, with arbitrary
distinct argument lists, return the same handle (two-run
noninterference). -/
theorem language_ignores_arguments (env : NapiEnv)
    (args1 args2 : List JsValue) :
    languageCallback env args1 = languageCallback env args2 :=
  rfl
